import Mathlib

/-!
Shallow embedding of the `nls` package (`scope.go`): a tree of scopes that
own cleanup actions (`Reaper`s) and child scopes, torn down by `Exit` in
reverse registration order.

Modelling choices:
* Heap effects of Go closures (a reaper flipping a flag, an error handler
  storing the error) are made explicit by threading a world state of an
  arbitrary type `σ` through every function.
* Go `error` values are modelled as strings compared by equality, matching
  the `err != ctx.Err()` comparison in `scope.go`; `nil` is `Option.none`.
* A `context.Context` is modelled by the snapshot of `ctx.Err()` during the
  call: `none` means healthy, `some e` means canceled / deadline exceeded.
  Context errors in Go are monotone; we model contexts whose status does not
  change while the modelled call runs (already-expired or never-expiring).
* A nil Go function value is `Option.none`; invoking a nil `Reaper` is a Go
  runtime panic, modelled as the `ExitOut.crash` outcome.
* The per-scope mutex and the asynchronous error channel (`errors`,
  `Scope.Err`) are concurrency plumbing with no effect on the sequential
  semantics modelled here and are omitted.
-/

namespace Nls

/-- Go `error` values, compared by equality (as `scope.go` does with
`err != ctx.Err()`). -/
abbrev Error := String

/-- Snapshot of a `context.Context`: the value `ctx.Err()` returns while the
modelled call runs (`none` = healthy, `some e` = canceled or expired). -/
structure Ctx where
  err : Option Error
deriving DecidableEq

/-- The `state` type of `scope.go` (lines 18-23) with its two values. -/
inductive state where
  | active
  | done
deriving DecidableEq

/-- `Reaper` (`scope.go` line 12): `func(context.Context) error`, with its
heap effect made explicit on the world `σ`. -/
def Reaper (σ : Type) : Type := Ctx → σ → σ × Option Error

/-- `Spawner` (`scope.go` line 16): `func(context.Context) (Reaper, error)`,
with its heap effect explicit; the returned reaper may be nil (`none`). -/
def Spawner (σ : Type) : Type := Ctx → σ → σ × Option (Reaper σ) × Option Error

/-- `Scope` (`scope.go` lines 34-41): lifecycle state, children in creation
order (`list.PushBack` appends at the back), reapers in registration order.
A reaper entry of `none` is a nil Go function value. -/
inductive Scope (σ : Type) : Type where
  | mk (st : state) (children : List (Scope σ)) (reapers : List (Option (Reaper σ)))

/-- Outcome of a teardown call: a returned Go error value, or a runtime
panic from invoking a nil `Reaper`. -/
inductive ExitOut where
  | ret (e : Option Error)
  | crash
deriving DecidableEq

/-- The `exitCfg.onError` observer (`scope.go` lines 111-113), with its heap
effect explicit. -/
def Obs (σ : Type) : Type := Error → σ → σ

/-- The default `onError` of `Scope.Exit` (`scope.go` line 134): discard. -/
def noObs {σ : Type} : Obs σ := fun _ w => w

/-- One error-observation step of `exit` (`scope.go` lines 162-164 and
171-173): `if err != nil && err != ctx.Err() { ec.onError(err) }`. Besides
applying the observer to the world this records the delivered error, so that
theorems can count the observer's invocations. -/
def observeStep {σ : Type} (ctx : Ctx) (obs : Obs σ) (err : Option Error) (w : σ) :
    σ × List Error :=
  match err with
  | none => (w, [])
  | some e => if ctx.err = some e then (w, []) else (obs e w, [e])

/-- The reapers loop of `exit` (`scope.go` lines 169-177): reapers run from
the most recently registered (back of the list) to the first, so the head of
the list is processed last; after each reaper the context is polled and a
non-nil `ctx.Err()` is returned at once. A `none` entry is a nil function
value and invoking it panics (`ExitOut.crash`). -/
def runReapers {σ : Type} (ctx : Ctx) (obs : Obs σ) :
    List (Option (Reaper σ)) → σ → σ × List Error × ExitOut
  | [], w => (w, [], .ret none)
  | r :: rest, w =>
    match runReapers ctx obs rest w with
    | (w1, calls1, .ret none) =>
      match r with
      | none => (w1, calls1, .crash)
      | some f =>
        match f ctx w1 with
        | (w2, err) =>
          match observeStep ctx obs err w2 with
          | (w3, calls3) =>
            match ctx.err with
            | some ce => (w3, calls1 ++ calls3, .ret (some ce))
            | none => (w3, calls1 ++ calls3, .ret none)
    | (w1, calls1, out) => (w1, calls1, out)

mutual

/-- Body of `(*Scope).exit` (`scope.go` lines 157-178), before the deferred
finalizer: if the scope is not active return nil at once; otherwise walk the
children from most recently created to oldest, then the reapers from most
recently registered to first, observing non-context errors and aborting with
`ctx.Err()` as soon as it is non-nil after a step. -/
def exitBody {σ : Type} (ctx : Ctx) (obs : Obs σ) : Scope σ → σ → σ × List Error × ExitOut
  | .mk .done _ _, w => (w, [], .ret none)
  | .mk .active cs rs, w =>
    match exitChildren ctx obs cs w with
    | (w1, calls1, some out) => (w1, calls1, out)
    | (w1, calls1, none) =>
      match runReapers ctx obs rs w1 with
      | (w2, calls2, out) => (w2, calls1 ++ calls2, out)

/-- The children loop of `exit` (`scope.go` lines 160-168): iterate from the
back (most recently created) to the front, recursively exiting each child;
a child's non-context error goes to the observer, a panic propagates, and a
non-nil `ctx.Err()` after a child aborts the walk. The result's third
component is `some out` for an early return and `none` to continue into the
reapers loop. -/
def exitChildren {σ : Type} (ctx : Ctx) (obs : Obs σ) :
    List (Scope σ) → σ → σ × List Error × Option ExitOut
  | [], w => (w, [], none)
  | c :: rest, w =>
    match exitChildren ctx obs rest w with
    | (w1, calls1, some out) => (w1, calls1, some out)
    | (w1, calls1, none) =>
      match exitBody ctx obs c w1 with
      | (w2, calls2, .crash) => (w2, calls1 ++ calls2, some .crash)
      | (w2, calls2, .ret cerr) =>
        match observeStep ctx obs cerr w2 with
        | (w3, calls3) =>
          match ctx.err with
          | some ce => (w3, calls1 ++ calls2 ++ calls3, some (.ret (some ce)))
          | none => (w3, calls1 ++ calls2 ++ calls3, none)

end

/-- `(*Scope).exit` (`scope.go` lines 149-179): run the body, then the
deferred finalizer (lines 151-156) unconditionally clears `reapers`, clears
`children` and sets `state = done` — on the early-return path, on the
cancellation path, and (defers run during a panic) on the panic path. The
first component is the scope the defer leaves behind. -/
def exit {σ : Type} (ctx : Ctx) (obs : Obs σ) (s : Scope σ) (w : σ) :
    Scope σ × σ × List Error × ExitOut :=
  (Scope.mk .done [] [], exitBody ctx obs s w)

/-- `Scope.Exit` (`scope.go` lines 132-142) on a root scope, with `obs` the
`WithErrorHandler` observer (default `noObs`): build the exit config, call
`exit`, then `detach` — a no-op for a root scope. -/
def Exit {σ : Type} (ctx : Ctx) (obs : Obs σ) (s : Scope σ) (w : σ) :
    Scope σ × σ × List Error × ExitOut :=
  exit ctx obs s w

/-- `Scope.Exit` invoked on the i-th child of a parent scope: call `exit` on
the child, then the child's `detach` capability (`scope.go` lines 85-89)
removes exactly that element from the parent's children list — once, at this
outermost call only; the internal recursion (`exit`, not `Exit`) never
detaches. Result: (parent after detach, finalized child, world, observer
calls, outcome). The `none` branch (index out of range) cannot arise in Go,
where detach holds a handle to a live list element. -/
def ExitChild {σ : Type} (ctx : Ctx) (obs : Obs σ) (parent : Scope σ) (i : Nat) (w : σ) :
    Scope σ × Scope σ × σ × List Error × ExitOut :=
  match parent with
  | .mk st cs rs =>
    match cs[i]? with
    | none => (.mk st cs rs, .mk .done [] [], w, [], .ret none)
    | some c =>
      match exit ctx obs c w with
      | (cdone, w1, calls, out) => (.mk st (cs.eraseIdx i) rs, cdone, w1, calls, out)

/-- The error `Scope.Spawn` builds on `scope.go` line 101 when the scope is
in the `done` state. -/
def spawnDoneErr : Error := "cannot spawn in scope with state \"done\""

/-- `Scope.Spawn` (`scope.go` lines 97-109): fail fast (without invoking the
spawner) if the scope is not active; otherwise invoke the spawner, propagate
its error verbatim registering nothing, and on success append the returned
reaper (even a nil one) to `reapers`. Result: (scope after, world after,
returned error). -/
def Spawn {σ : Type} (ctx : Ctx) (s : Scope σ) (sp : Spawner σ) (w : σ) :
    Scope σ × σ × Option Error :=
  match s with
  | .mk .done cs rs => (.mk .done cs rs, w, some spawnDoneErr)
  | .mk .active cs rs =>
    match sp ctx w with
    | (w1, _, some e) => (.mk .active cs rs, w1, some e)
    | (w1, r, none) => (.mk .active cs (rs ++ [r]), w1, none)

/-- `NewScope` (`scope.go` lines 57-68): a fresh active scope with no
children and no reapers. (`ScopeOpt`s only substitute the async error
channel, which is outside this model.) -/
def NewScope {σ : Type} : Scope σ := .mk .active [] []

/-- `Scope.NewChildScope` (`scope.go` lines 76-91): if the parent is not
active, return the parent itself unchanged; otherwise create a fresh active
child, append it at the back of the parent's children and return it. Result:
(parent after, returned scope). -/
def NewChildScope {σ : Type} : Scope σ → Scope σ × Scope σ
  | .mk .done cs rs => (.mk .done cs rs, .mk .done cs rs)
  | .mk .active cs rs => (.mk .active (cs ++ [NewScope]) rs, NewScope)

mutual

/-- Modelled from the spec's teardown-order sentence, for comparison with
the source-derived `exitBody`: the sequence of cleanup actions a teardown is
supposed to run — children from most recently created to oldest, each child
fully (recursively) flattened before the next older one, followed by this
scope's own reapers from most recently registered to first. A scope already
done contributes nothing. -/
def reapOrder {σ : Type} : Scope σ → List (Option (Reaper σ))
  | .mk .done _ _ => []
  | .mk .active cs rs => reapOrderList cs ++ rs.reverse

/-- Flattening of a children list (creation order) into its teardown
sequence: later-created children first. -/
def reapOrderList {σ : Type} : List (Scope σ) → List (Option (Reaper σ))
  | [] => []
  | c :: rest => reapOrderList rest ++ reapOrder c

end

/-- Straight-line execution of a teardown sequence with no cancellation
checks (the spec side of the order claim, meaningful for a context whose
`ctx.Err()` stays nil): run each action in order, observe its non-context
error, and crash at a nil entry. -/
def runSeq {σ : Type} (ctx : Ctx) (obs : Obs σ) :
    List (Option (Reaper σ)) → σ → σ × List Error × ExitOut
  | [], w => (w, [], .ret none)
  | none :: _, w => (w, [], .crash)
  | some f :: rest, w =>
    match f ctx w with
    | (w2, err) =>
      match observeStep ctx obs err w2 with
      | (w3, calls3) =>
        match runSeq ctx obs rest w3 with
        | (w4, calls4, out) => (w4, calls3 ++ calls4, out)

/-- Sequencing of teardown results: continue with `k` only after a normal
`.ret none` completion, otherwise propagate. -/
def seqComp {σ : Type} :
    σ × List Error × ExitOut → (σ → σ × List Error × ExitOut) → σ × List Error × ExitOut
  | (w1, c1, .ret none), k =>
    match k w1 with
    | (w2, c2, out) => (w2, c1 ++ c2, out)
  | (w1, c1, out), _ => (w1, c1, out)

/-- View of a teardown result as the children-loop's continue/abort shape:
`.ret none` means fall through to the reapers loop, anything else is an
early return. -/
def contOf {σ : Type} : σ × List Error × ExitOut → σ × List Error × Option ExitOut
  | (w, c, .ret none) => (w, c, none)
  | (w, c, out) => (w, c, some out)

/-- World type for the concrete scenarios: a log of events (reaper runs,
observer deliveries), so that execution order and unexecuted effects are
observable. -/
abbrev Log := List String

/-- A reaper that records its run under the given name and succeeds. -/
def logReap (n : String) : Option (Reaper Log) := some fun _ w => (w ++ [n], none)

/-- A reaper that fails with the given error and has no other effect. -/
def failReap (e : Error) : Option (Reaper Log) := some fun _ w => (w, some e)

/-- An error observer that records each delivered error in the world. -/
def obsLog : Obs Log := fun e w => w ++ ["obs:" ++ e]

/-- A healthy context: `ctx.Err()` is nil. -/
def ctxN : Ctx := ⟨none⟩

/-- An already-expired context, as produced by `context.WithDeadline` in the
past: `ctx.Err()` is `context.DeadlineExceeded`. -/
def ctxD : Ctx := ⟨some "context deadline exceeded"⟩

/-- A scope with reapers `[a, b, c]` registered in that order. -/
def sABC : Scope Log := .mk .active [] [logReap "a", logReap "b", logReap "c"]

/-- A scope with a single reaper that fails with error `E`. -/
def sOneFail : Scope Log := .mk .active [] [failReap "E"]

/-- The underlying function of a reaper whose observable effect is setting
the `reaped` flag in the world. -/
def flagFn : Reaper Log := fun _ w => (w ++ ["reaped"], none)

/-- A scope with a single pending reaper whose effect is the `reaped` flag. -/
def sOneFlag : Scope Log := .mk .active [] [some flagFn]

/-- A spawner that fails with error `boom` (acquiring nothing). -/
def spBoom : Spawner Log := fun _ w => (w, none, some "boom")

/-- A spawner that succeeds while returning a nil reaper: `(nil, nil)`. -/
def spNilNil : Spawner Log := fun _ w => (w, none, none)

/-- Scenario tree, built in the listed creation order: root `R` with
children `A` (children `B`, `C`) and `D` (child `E`); every scope has one
logging reaper named after it. -/
def bS : Scope Log := .mk .active [] [logReap "b"]

/-- Child `C` of `A` in the scenario tree. -/
def cS : Scope Log := .mk .active [] [logReap "c"]

/-- Child `A` of the scenario root, with children `[B, C]`. -/
def aS : Scope Log := .mk .active [bS, cS] [logReap "a"]

/-- Child `E` of `D` in the scenario tree. -/
def eS : Scope Log := .mk .active [] [logReap "e"]

/-- Child `D` of the scenario root, with child `[E]`. -/
def dS : Scope Log := .mk .active [eS] [logReap "d"]

/-- The scenario root `R`, with children `[A, D]`. -/
def rootS : Scope Log := .mk .active [aS, dS] [logReap "root"]

/-- A straight-line run of a teardown sequence either completes normally
(returning nil) or crashes on a nil entry; it never returns an error. -/
theorem runSeq_out {σ : Type} (ctx : Ctx) (obs : Obs σ) (l : List (Option (Reaper σ)))
    (w : σ) :
    (runSeq ctx obs l w).2.2 = .ret none ∨ (runSeq ctx obs l w).2.2 = .crash := by
  induction l generalizing w with
  | nil => exact Or.inl rfl
  | cons r rest ih =>
    cases r with
    | none => exact Or.inr rfl
    | some f =>
      simp only [runSeq]
      rcases hf : f ctx w with ⟨w2, err⟩
      rcases ho : observeStep ctx obs err w2 with ⟨w3, c3⟩
      rcases hr : runSeq ctx obs rest w3 with ⟨w4, c4, out⟩
      have h2 := ih w3
      rw [hr] at h2
      simpa using h2

/-- Straight-line runs compose over list append. -/
theorem runSeq_append {σ : Type} (ctx : Ctx) (obs : Obs σ)
    (l1 l2 : List (Option (Reaper σ))) (w : σ) :
    runSeq ctx obs (l1 ++ l2) w = seqComp (runSeq ctx obs l1 w) (runSeq ctx obs l2) := by
  induction l1 generalizing w with
  | nil =>
    rcases hk : runSeq ctx obs l2 w with ⟨w2, c2, out⟩
    simp [runSeq, seqComp, hk]
  | cons r rest ih =>
    cases r with
    | none => simp [runSeq, seqComp]
    | some f =>
      rcases hf : f ctx w with ⟨w2, err⟩
      rcases ho : observeStep ctx obs err w2 with ⟨w3, c3⟩
      rcases hr2 : runSeq ctx obs (rest ++ l2) w3 with ⟨w4, c4, out4⟩
      rcases hrr : runSeq ctx obs rest w3 with ⟨w5, c5, out5⟩
      have lhs_eq : runSeq ctx obs ((some f :: rest) ++ l2) w = (w4, c3 ++ c4, out4) := by
        simp [runSeq, hf, ho, List.append_eq, hr2]
      have rhs1 : runSeq ctx obs (some f :: rest) w = (w5, c3 ++ c5, out5) := by
        simp [runSeq, hf, ho, hrr]
      have ihw := ih w3
      rw [hr2, hrr] at ihw
      rw [lhs_eq, rhs1]
      match out5 with
      | .ret none =>
        rcases hk : runSeq ctx obs l2 w5 with ⟨w6, c6, out6⟩
        rw [seqComp, hk] at ihw
        obtain ⟨rfl, rfl, rfl⟩ : w4 = w6 ∧ c4 = c5 ++ c6 ∧ out4 = out6 := by
          simpa using ihw
        simp [seqComp, hk, List.append_assoc]
      | .ret (some e) =>
        obtain ⟨rfl, rfl, rfl⟩ : w4 = w5 ∧ c4 = c5 ∧ out4 = ExitOut.ret (some e) := by
          simpa [seqComp] using ihw
        simp [seqComp]
      | .crash =>
        obtain ⟨rfl, rfl, rfl⟩ : w4 = w5 ∧ c4 = c5 ∧ out4 = ExitOut.crash := by
          simpa [seqComp] using ihw
        simp [seqComp]

/-- The reapers loop of `exit` run under a context whose `ctx.Err()` stays
nil is exactly the straight-line run of the reapers in reverse registration
order. -/
theorem runReapers_runSeq {σ : Type} (ctx : Ctx) (obs : Obs σ) (h : ctx.err = none)
    (l : List (Option (Reaper σ))) (w : σ) :
    runReapers ctx obs l w = runSeq ctx obs l.reverse w := by
  induction l generalizing w with
  | nil => rfl
  | cons r rest ih =>
    rcases hr : runSeq ctx obs rest.reverse w with ⟨w1, c1, out1⟩
    have hrr : runReapers ctx obs rest w = (w1, c1, out1) := by rw [ih w, hr]
    have hout := runSeq_out ctx obs rest.reverse w
    rw [hr] at hout
    simp only at hout
    have happ : runSeq ctx obs (r :: rest).reverse w
        = seqComp (w1, c1, out1) (runSeq ctx obs [r]) := by
      rw [List.reverse_cons, runSeq_append, hr]
    rw [happ]
    rcases hout with h1 | h1 <;> subst h1
    · cases r with
      | none =>
        have lhs_eq : runReapers ctx obs (none :: rest) w = (w1, c1, ExitOut.crash) := by
          simp [runReapers, hrr]
        rw [lhs_eq]
        simp [seqComp, runSeq]
      | some f =>
        rcases hf : f ctx w1 with ⟨w2, err⟩
        rcases ho : observeStep ctx obs err w2 with ⟨w3, c3⟩
        have lhs_eq : runReapers ctx obs (some f :: rest) w
            = (w3, c1 ++ c3, ExitOut.ret none) := by
          simp [runReapers, hrr, hf, ho, h]
        rw [lhs_eq]
        simp [seqComp, runSeq, hf, ho]
    · have lhs_eq : runReapers ctx obs (r :: rest) w = (w1, c1, ExitOut.crash) := by
        simp [runReapers, hrr]
      rw [lhs_eq]
      simp [seqComp]

/-- The reapers loop returns either nil, a crash on a nil reaper, or the
context's own (non-nil) error — never a reaper's error. -/
theorem runReapers_out {σ : Type} (ctx : Ctx) (obs : Obs σ)
    (l : List (Option (Reaper σ))) (w : σ) :
    (runReapers ctx obs l w).2.2 = .ret none ∨ (runReapers ctx obs l w).2.2 = .crash ∨
      (∃ e, ctx.err = some e ∧ (runReapers ctx obs l w).2.2 = .ret (some e)) := by
  induction l generalizing w with
  | nil => exact Or.inl rfl
  | cons r rest ih =>
    rcases hr : runReapers ctx obs rest w with ⟨w1, c1, out1⟩
    have h2 := ih w
    rw [hr] at h2
    simp only at h2
    match out1 with
    | .crash =>
      have lhs_eq : (runReapers ctx obs (r :: rest) w).2.2 = ExitOut.crash := by
        simp [runReapers, hr]
      rw [lhs_eq]
      simp
    | .ret (some e) =>
      have lhs_eq : (runReapers ctx obs (r :: rest) w).2.2 = ExitOut.ret (some e) := by
        simp [runReapers, hr]
      rw [lhs_eq]
      simpa using h2
    | .ret none =>
      cases r with
      | none =>
        have lhs_eq : (runReapers ctx obs (none :: rest) w).2.2 = ExitOut.crash := by
          simp [runReapers, hr]
        rw [lhs_eq]
        simp
      | some f =>
        rcases hf : f ctx w1 with ⟨w2, err⟩
        rcases ho : observeStep ctx obs err w2 with ⟨w3, c3⟩
        rcases hc : ctx.err with _ | ce
        · have lhs_eq : (runReapers ctx obs (some f :: rest) w).2.2 = ExitOut.ret none := by
            simp [runReapers, hr, hf, ho, hc]
          rw [lhs_eq]
          simp
        · have lhs_eq : (runReapers ctx obs (some f :: rest) w).2.2
              = ExitOut.ret (some ce) := by
            simp [runReapers, hr, hf, ho, hc]
          rw [lhs_eq]
          exact Or.inr (Or.inr ⟨ce, rfl, rfl⟩)

/-- The children loop of `exit` either falls through, crashes, or aborts
with the context's own error. -/
theorem exitChildren_out {σ : Type} (ctx : Ctx) (obs : Obs σ) (cs : List (Scope σ))
    (w : σ) :
    (exitChildren ctx obs cs w).2.2 = none ∨
      (exitChildren ctx obs cs w).2.2 = some .crash ∨
      (∃ e, ctx.err = some e ∧ (exitChildren ctx obs cs w).2.2 = some (.ret (some e))) := by
  induction cs generalizing w with
  | nil => exact Or.inl rfl
  | cons c rest ih =>
    have hr := ih w
    rcases hrs : exitChildren ctx obs rest w with ⟨w1, c1, o⟩
    rw [hrs] at hr
    simp only at hr
    match o with
    | some out =>
      have lhs_eq : (exitChildren ctx obs (c :: rest) w).2.2 = some out := by
        simp [exitChildren, hrs]
      rw [lhs_eq]
      exact hr
    | none =>
      match out2 : (exitBody ctx obs c w1).2.2 with
      | .crash =>
        have lhs_eq : (exitChildren ctx obs (c :: rest) w).2.2 = some ExitOut.crash := by
          rcases hbs : exitBody ctx obs c w1 with ⟨w2, c2, ob⟩
          rw [hbs] at out2
          simp only at out2
          subst out2
          simp [exitChildren, hrs, hbs]
        rw [lhs_eq]
        simp
      | .ret cerr =>
        rcases hc : ctx.err with _ | ce
        · have lhs_eq : (exitChildren ctx obs (c :: rest) w).2.2 = none := by
            rcases hbs : exitBody ctx obs c w1 with ⟨w2, c2, ob⟩
            rw [hbs] at out2
            simp only at out2
            subst out2
            simp [exitChildren, hrs, hbs, hc]
          rw [lhs_eq]
          simp
        · have lhs_eq : (exitChildren ctx obs (c :: rest) w).2.2
              = some (ExitOut.ret (some ce)) := by
            rcases hbs : exitBody ctx obs c w1 with ⟨w2, c2, ob⟩
            rw [hbs] at out2
            simp only at out2
            subst out2
            simp [exitChildren, hrs, hbs, hc]
          rw [lhs_eq]
          exact Or.inr (Or.inr ⟨ce, rfl, rfl⟩)

/-- The body of `exit` returns either nil, a crash from a nil reaper, or the
context's own error. -/
theorem exitBody_out {σ : Type} (ctx : Ctx) (obs : Obs σ) (s : Scope σ) (w : σ) :
    (exitBody ctx obs s w).2.2 = .ret none ∨ (exitBody ctx obs s w).2.2 = .crash ∨
      (∃ e, ctx.err = some e ∧ (exitBody ctx obs s w).2.2 = .ret (some e)) := by
  match s with
  | .mk .done cs rs => exact Or.inl rfl
  | .mk .active cs rs =>
    have hc := exitChildren_out ctx obs cs w
    rcases hcs : exitChildren ctx obs cs w with ⟨w1, c1, o⟩
    rw [hcs] at hc
    simp only at hc
    match o with
    | some out =>
      have hc2 : out = ExitOut.crash ∨ ∃ e, ctx.err = some e ∧ out = ExitOut.ret (some e) := by
        simpa using hc
      have lhs_eq : (exitBody ctx obs (Scope.mk .active cs rs) w).2.2 = out := by
        simp [exitBody, hcs]
      rw [lhs_eq]
      rcases hc2 with h1 | ⟨e, he, h1⟩
      · exact Or.inr (Or.inl h1)
      · exact Or.inr (Or.inr ⟨e, he, h1⟩)
    | none =>
      have hrr := runReapers_out ctx obs rs w1
      rcases hrw : runReapers ctx obs rs w1 with ⟨w2, c2, out2⟩
      rw [hrw] at hrr
      simp only at hrr
      have lhs_eq : (exitBody ctx obs (Scope.mk .active cs rs) w).2.2 = out2 := by
        simp [exitBody, hcs, hrw]
      rw [lhs_eq]
      exact hrr

mutual

/-- Under a context whose `ctx.Err()` stays nil, the body of `exit` is
exactly the straight-line run of the scope's teardown sequence: children
from most recent to oldest, each fully flattened, then own reapers from most
recent to first. -/
theorem exitBody_runSeq {σ : Type} (ctx : Ctx) (obs : Obs σ) (h : ctx.err = none)
    (s : Scope σ) (w : σ) :
    exitBody ctx obs s w = runSeq ctx obs (reapOrder s) w := by
  match s with
  | .mk .done cs rs => simp [exitBody, reapOrder, runSeq]
  | .mk .active cs rs =>
    have hch := exitChildren_runSeq ctx obs h cs w
    rcases hr : runSeq ctx obs (reapOrderList cs) w with ⟨w1, c1, out1⟩
    rw [hr] at hch
    have hout := runSeq_out ctx obs (reapOrderList cs) w
    rw [hr] at hout
    simp only at hout
    have happ : runSeq ctx obs (reapOrder (Scope.mk .active cs rs)) w
        = seqComp (w1, c1, out1) (runSeq ctx obs rs.reverse) := by
      simp only [reapOrder]
      rw [runSeq_append, hr]
    rw [happ]
    rcases hout with h1 | h1 <;> subst h1
    · rcases hk : runSeq ctx obs rs.reverse w1 with ⟨w2, c2, out2⟩
      have hrr : runReapers ctx obs rs w1 = (w2, c2, out2) := by
        rw [runReapers_runSeq ctx obs h rs w1, hk]
      have lhs_eq : exitBody ctx obs (Scope.mk .active cs rs) w = (w2, c1 ++ c2, out2) := by
        simp [exitBody, hch, contOf, hrr]
      have rhs_eq : seqComp (w1, c1, ExitOut.ret none) (runSeq ctx obs rs.reverse)
          = (w2, c1 ++ c2, out2) := by
        simp [seqComp, hk]
      rw [lhs_eq, rhs_eq]
    · have lhs_eq : exitBody ctx obs (Scope.mk .active cs rs) w = (w1, c1, ExitOut.crash) := by
        simp [exitBody, hch, contOf]
      have rhs_eq : seqComp (w1, c1, ExitOut.crash) (runSeq ctx obs rs.reverse)
          = (w1, c1, ExitOut.crash) := by
        simp [seqComp]
      rw [lhs_eq, rhs_eq]

/-- Under a context whose `ctx.Err()` stays nil, the children loop of `exit`
is the straight-line run of the flattened children teardown sequence, viewed
through the continue/abort shape. -/
theorem exitChildren_runSeq {σ : Type} (ctx : Ctx) (obs : Obs σ) (h : ctx.err = none)
    (cs : List (Scope σ)) (w : σ) :
    exitChildren ctx obs cs w = contOf (runSeq ctx obs (reapOrderList cs) w) := by
  match cs with
  | [] => simp [exitChildren, reapOrderList, runSeq, contOf]
  | c :: rest =>
    have hch := exitChildren_runSeq ctx obs h rest w
    rcases hr : runSeq ctx obs (reapOrderList rest) w with ⟨w1, c1, out1⟩
    rw [hr] at hch
    have hout := runSeq_out ctx obs (reapOrderList rest) w
    rw [hr] at hout
    simp only at hout
    have happ : runSeq ctx obs (reapOrderList (c :: rest)) w
        = seqComp (w1, c1, out1) (runSeq ctx obs (reapOrder c)) := by
      simp only [reapOrderList]
      rw [runSeq_append, hr]
    rw [happ]
    rcases hout with h1 | h1 <;> subst h1
    · have hbc := exitBody_runSeq ctx obs h c w1
      rcases hb : runSeq ctx obs (reapOrder c) w1 with ⟨w2, c2, out2⟩
      rw [hb] at hbc
      have hbout := runSeq_out ctx obs (reapOrder c) w1
      rw [hb] at hbout
      simp only at hbout
      rcases hbout with h2 | h2 <;> subst h2
      · have lhs_eq : exitChildren ctx obs (c :: rest) w = (w2, c1 ++ c2, none) := by
          simp [exitChildren, hch, contOf, hbc, observeStep, h]
        have rhs_eq : contOf (seqComp (w1, c1, ExitOut.ret none)
              (runSeq ctx obs (reapOrder c))) = (w2, c1 ++ c2, none) := by
          simp [seqComp, hb, contOf]
        rw [lhs_eq, rhs_eq]
      · have lhs_eq : exitChildren ctx obs (c :: rest) w
            = (w2, c1 ++ c2, some ExitOut.crash) := by
          simp [exitChildren, hch, contOf, hbc]
        have rhs_eq : contOf (seqComp (w1, c1, ExitOut.ret none)
              (runSeq ctx obs (reapOrder c))) = (w2, c1 ++ c2, some ExitOut.crash) := by
          simp [seqComp, hb, contOf]
        rw [lhs_eq, rhs_eq]
    · have lhs_eq : exitChildren ctx obs (c :: rest) w = (w1, c1, some ExitOut.crash) := by
        simp [exitChildren, hch, contOf]
      have rhs_eq : contOf (seqComp (w1, c1, ExitOut.crash)
            (runSeq ctx obs (reapOrder c))) = (w1, c1, some ExitOut.crash) := by
        simp [seqComp, contOf]
      rw [lhs_eq, rhs_eq]

end

/-- A reapers list ending in a nil entry makes the reapers loop crash at
once: the nil reaper is the most recently registered, hence the first one
the loop invokes, before any context check. -/
theorem runReapers_nilLast {σ : Type} (ctx : Ctx) (obs : Obs σ)
    (l : List (Option (Reaper σ))) (w : σ) :
    runReapers ctx obs (l ++ [none]) w = (w, [], .crash) := by
  induction l with
  | nil => rfl
  | cons r rest ih => simp [runReapers, List.cons_append, ih]

/-- With an already-expired context, the reapers loop still invokes the most
recently registered reaper (the context is polled only after the step), then
aborts with the context's error; earlier-registered reapers do not run. -/
theorem runReapers_expired {σ : Type} (ctx : Ctx) (obs : Obs σ) (ce : Error)
    (h : ctx.err = some ce) (l : List (Option (Reaper σ))) (f : Reaper σ) (w : σ) :
    runReapers ctx obs (l ++ [some f]) w
      = ((observeStep ctx obs (f ctx w).2 (f ctx w).1).1,
          (observeStep ctx obs (f ctx w).2 (f ctx w).1).2, .ret (some ce)) := by
  induction l with
  | nil =>
    rcases hf : f ctx w with ⟨w2, err⟩
    rcases ho : observeStep ctx obs err w2 with ⟨w3, c3⟩
    simp [runReapers, hf, ho, h]
  | cons r rest ih => simp [runReapers, List.cons_append, ih]

/-- Exiting an active scope whose reapers list ends in a nil entry crashes
whenever its children do not abort first: under a healthy context the body
of `exit` always reaches the nil reaper or propagates a crash. -/
theorem exit_nilLast_crash {σ : Type} (ctx : Ctx) (obs : Obs σ) (h : ctx.err = none)
    (cs : List (Scope σ)) (rs : List (Option (Reaper σ))) (w : σ) :
    (exitBody ctx obs (Scope.mk .active cs (rs ++ [none])) w).2.2 = .crash := by
  have hc := exitChildren_out ctx obs cs w
  rcases hcs : exitChildren ctx obs cs w with ⟨w1, c1, o⟩
  rw [hcs] at hc
  simp only at hc
  match o with
  | some out =>
    have hcr : out = ExitOut.crash := by
      rcases hc with h1 | h1 | ⟨e, he, h1⟩
      · simp at h1
      · simpa using h1
      · rw [h] at he; cases he
    subst hcr
    simp [exitBody, hcs]
  | none =>
    simp [exitBody, hcs, runReapers_nilLast]

/-- C1: for every scope and every sequence of registrations, `Exit` (under a
context that stays healthy) tears down in strictly reverse registration
order — children from most recently created to oldest, each child fully
(recursively) finished before the next older one, then this scope's own
reapers from most recently registered to first (the straight-line run of
`reapOrder`); in particular a scope with reapers `[a, b, c]` registered in
that order runs `c`, then `b`, then `a`. -/
theorem C1_exit_reverse_order :
    (∀ (σ : Type) (ctx : Ctx) (obs : Obs σ) (s : Scope σ) (w : σ), ctx.err = none →
        Exit ctx obs s w = (Scope.mk .done [] [], runSeq ctx obs (reapOrder s) w)) ∧
      Exit ctxN obsLog sABC [] = (Scope.mk .done [] [], ["c", "b", "a"], [], .ret none) := by
  constructor
  · intro σ ctx obs s w h
    simp only [Exit, exit]
    rw [exitBody_runSeq ctx obs h s w]
  · rfl

/-- Witness for C1 at a concrete input: the context `ctxN` is healthy and
the teardown of `sABC` is the straight-line run of its reverse registration
order. -/
theorem C1_exit_reverse_order_witness :
    ctxN.err = none ∧
      Exit ctxN obsLog sABC []
        = (Scope.mk .done [] [], runSeq ctxN obsLog (reapOrder sABC) []) :=
  ⟨rfl, C1_exit_reverse_order.1 Log ctxN obsLog sABC [] rfl⟩

/-- C2: the only non-nil error `Exit` can return is the supplied context's
error — every outcome is nil, a crash (panic, not a return), or the
context's own error; and a reaper failing with an error `E` distinct from
the context's error leaves `Exit` returning nil while the observer receives
`E` exactly once (one recorded delivery, one observer effect). -/
theorem C2_exit_error_funnel :
    (∀ (σ : Type) (ctx : Ctx) (obs : Obs σ) (s : Scope σ) (w : σ),
        (Exit ctx obs s w).2.2.2 = .ret none ∨ (Exit ctx obs s w).2.2.2 = .crash ∨
          (∃ e, ctx.err = some e ∧ (Exit ctx obs s w).2.2.2 = .ret (some e))) ∧
      Exit ctxN obsLog sOneFail [] = (Scope.mk .done [] [], ["obs:E"], ["E"], .ret none) := by
  constructor
  · intro σ ctx obs s w
    simpa [Exit, exit] using exitBody_out ctx obs s w
  · rfl

/-- C3 counterexample: for the active scope `sOneFlag` holding one pending
cleanup action and the already-expired context `ctxD`, `Exit` does return
the context's error, but the pending cleanup action's effect IS observably
applied — the `reaped` flag is set — refuting the claim that the effect is
not applied. -/
theorem C3_counterexample :
    (Exit ctxD noObs sOneFlag []).2.2.2 = .ret (some "context deadline exceeded") ∧
      (Exit ctxD noObs sOneFlag []).2.1 = ["reaped"] ∧
      (Exit ctxD noObs sOneFlag []).2.1 ≠ [] := by
  exact ⟨rfl, rfl, by decide⟩

/-- C3 as amended: with an already-expired context, `Exit` on an active
scope with no children and at least one pending cleanup action returns the
context's error, but the most recently registered cleanup action IS invoked
(its effect applied and its non-context error observed) before the
post-step cancellation check aborts the walk; only the earlier-registered
actions are left unexecuted. -/
theorem C3_expired_ctx_runs_last_reaper :
    ∀ (σ : Type) (ctx : Ctx) (obs : Obs σ) (ce : Error)
      (rs : List (Option (Reaper σ))) (f : Reaper σ) (w : σ), ctx.err = some ce →
      Exit ctx obs (Scope.mk .active [] (rs ++ [some f])) w
        = (Scope.mk .done [] [],
            (observeStep ctx obs (f ctx w).2 (f ctx w).1).1,
            (observeStep ctx obs (f ctx w).2 (f ctx w).1).2,
            .ret (some ce)) := by
  intro σ ctx obs ce rs f w h
  simp only [Exit, exit, exitBody, exitChildren]
  rw [runReapers_expired ctx obs ce h rs f w]
  simp

/-- Witness for C3's amended statement at a concrete input: the expired
context `ctxD` and the single flag-setting reaper. -/
theorem C3_expired_ctx_runs_last_reaper_witness :
    ctxD.err = some "context deadline exceeded" ∧
      Exit ctxD obsLog (Scope.mk .active [] ([] ++ [some flagFn])) []
        = (Scope.mk .done [] [],
            (observeStep ctxD obsLog (flagFn ctxD []).2 (flagFn ctxD []).1).1,
            (observeStep ctxD obsLog (flagFn ctxD []).2 (flagFn ctxD []).1).2,
            .ret (some "context deadline exceeded")) :=
  ⟨rfl, C3_expired_ctx_runs_last_reaper Log ctxD obsLog "context deadline exceeded"
    [] flagFn [] rfl⟩

/-- C4: `Spawn` on a scope in the done state returns the non-nil
state error without ever invoking the supplied spawner — the result is the
same for every spawner, the world is untouched, and the scope (in particular
its reapers sequence) is unchanged. -/
theorem C4_spawn_done_fails_fast :
    ∀ (σ : Type) (ctx : Ctx) (cs : List (Scope σ)) (rs : List (Option (Reaper σ)))
      (sp : Spawner σ) (w : σ),
      Spawn ctx (Scope.mk .done cs rs) sp w
        = (Scope.mk .done cs rs, w, some spawnDoneErr) := by
  intro σ ctx cs rs sp w
  rfl

/-- C5: `Spawn` on an active scope whose spawner fails returns exactly that
error value and registers nothing: the scope is unchanged (still active,
reapers as before — empty if empty). -/
theorem C5_spawn_error_verbatim :
    ∀ (σ : Type) (ctx : Ctx) (cs : List (Scope σ)) (rs : List (Option (Reaper σ)))
      (sp : Spawner σ) (w w1 : σ) (r : Option (Reaper σ)) (e : Error),
      sp ctx w = (w1, r, some e) →
      Spawn ctx (Scope.mk .active cs rs) sp w = (Scope.mk .active cs rs, w1, some e) := by
  intro σ ctx cs rs sp w w1 r e hsp
  simp [Spawn, hsp]

/-- Witness for C5 at a concrete input: the spawner failing with `boom`
leaves the empty scope's reaper sequence empty and returns `boom`. -/
theorem C5_spawn_error_verbatim_witness :
    spBoom ctxN [] = ([], none, some "boom") ∧
      Spawn ctxN (Scope.mk .active [] []) spBoom []
        = (Scope.mk .active [] [], [], some "boom") :=
  ⟨rfl, C5_spawn_error_verbatim Log ctxN [] [] spBoom [] [] none "boom" rfl⟩

/-- C6: `Exit` is idempotent — on a scope already in the done state, under
any context (an already-canceled one included) and any observer, it returns
nil, leaves the world untouched and invokes no cleanup action; and exiting
any scope twice is equivalent to exiting it once, the second call being such
a no-op success. -/
theorem C6_exit_idempotent :
    ∀ (σ : Type) (ctx ctx2 : Ctx) (obs obs2 : Obs σ) (cs : List (Scope σ))
      (rs : List (Option (Reaper σ))) (s : Scope σ) (w w2 : σ),
      Exit ctx obs (Scope.mk .done cs rs) w = (Scope.mk .done [] [], w, [], .ret none) ∧
        Exit ctx2 obs2 (Exit ctx obs s w).1 w2
          = ((Exit ctx obs s w).1, w2, [], .ret none) := by
  intro σ ctx ctx2 obs obs2 cs rs s w w2
  exact ⟨rfl, rfl⟩

/-- C7: `NewChildScope` on a non-active parent returns the parent itself
with the children sequence unmodified, and `Spawn` against the returned
value fails exactly as against the done parent; on an active parent it
returns a fresh scope that starts active and is appended at the back of the
parent's children. -/
theorem C7_child_of_done_parent :
    ∀ (σ : Type) (ctx : Ctx) (cs : List (Scope σ)) (rs : List (Option (Reaper σ)))
      (sp : Spawner σ) (w : σ),
      NewChildScope (Scope.mk .done cs rs) = (Scope.mk .done cs rs, Scope.mk .done cs rs) ∧
        Spawn ctx (NewChildScope (Scope.mk .done cs rs)).2 sp w
          = Spawn ctx (Scope.mk .done cs rs) sp w ∧
        Spawn ctx (NewChildScope (Scope.mk .done cs rs)).2 sp w
          = (Scope.mk .done cs rs, w, some spawnDoneErr) ∧
        NewChildScope (Scope.mk .active cs rs)
          = (Scope.mk .active (cs ++ [NewScope]) rs, NewScope) ∧
        (NewScope : Scope σ) = Scope.mk .active [] [] := by
  intro σ ctx cs rs sp w
  exact ⟨rfl, rfl, rfl, rfl, rfl⟩

/-- C8: `exit` unconditionally finalizes local state — whatever scope it ran
on and however it ended (normally, aborted by cancellation, or panicking),
the scope it leaves behind has cleared reapers, cleared children and state
done; a later `exit` of that scope runs nothing (resources skipped by a
cancellation are never released by a retry) and further registrations fail. -/
theorem C8_exit_finalizes_unconditionally :
    ∀ (σ : Type) (ctx ctx2 ctx3 : Ctx) (obs obs2 : Obs σ) (s : Scope σ)
      (sp : Spawner σ) (w w2 w3 : σ),
      (exit ctx obs s w).1 = Scope.mk .done [] [] ∧
        exit ctx2 obs2 (exit ctx obs s w).1 w2
          = (Scope.mk .done [] [], w2, [], .ret none) ∧
        Spawn ctx3 (exit ctx obs s w).1 sp w3
          = (Scope.mk .done [] [], w3, some spawnDoneErr) := by
  intro σ ctx ctx2 ctx3 obs obs2 s sp w w2 w3
  exact ⟨rfl, rfl, rfl⟩

/-- C9: exiting one child scope affects only that child's subtree. In the
scenario tree (root `R` with children `A` = `[B, C]` and `D` = `[E]`),
exiting `A` runs exactly `c`, `b`, `a`, removes `A` from `R`'s children (the
detach step of the outermost `Exit` call), and leaves `R`, `D`, `E` active
with their reapers unexecuted; a subsequent `Exit` of `R` then tears down
the `D` subtree (entering `D`, recursively finishing `E` first) and `R`
itself, appending `e`, `d`, `root` to the log. -/
theorem C9_exit_child_frame :
    ExitChild ctxN obsLog rootS 0 []
        = (Scope.mk .active [dS] [logReap "root"], Scope.mk .done [] [],
            ["c", "b", "a"], [], .ret none) ∧
      Exit ctxN obsLog (Scope.mk .active [dS] [logReap "root"]) ["c", "b", "a"]
        = (Scope.mk .done [] [], ["c", "b", "a", "e", "d", "root"], [], .ret none) := by
  exact ⟨rfl, rfl⟩

/-- C10: a spawner that succeeds while returning a nil reaper makes `Spawn`
report success and append the nil entry to the reapers sequence; a
subsequent `Exit` of that scope under an unexpired context invokes the nil
function — the reaper invocation is not guarded against nil — and crashes
instead of returning. -/
theorem C10_nil_reaper_crash :
    ∀ (σ : Type) (ctx ctx2 : Ctx) (obs : Obs σ) (cs : List (Scope σ))
      (rs : List (Option (Reaper σ))) (sp : Spawner σ) (w w1 w2 : σ),
      sp ctx w = (w1, none, none) → ctx2.err = none →
      Spawn ctx (Scope.mk .active cs rs) sp w
          = (Scope.mk .active cs (rs ++ [none]), w1, none) ∧
        (Exit ctx2 obs (Spawn ctx (Scope.mk .active cs rs) sp w).1 w2).2.2.2 = .crash := by
  intro σ ctx ctx2 obs cs rs sp w w1 w2 hsp h2
  have hspawn : Spawn ctx (Scope.mk .active cs rs) sp w
      = (Scope.mk .active cs (rs ++ [none]), w1, none) := by simp [Spawn, hsp]
  refine ⟨hspawn, ?_⟩
  rw [hspawn]
  simpa [Exit, exit] using exit_nilLast_crash ctx2 obs h2 cs rs w2

/-- Witness for C10 at a concrete input: the `(nil, nil)` spawner on a fresh
scope, followed by an exit under the healthy context, which crashes. -/
theorem C10_nil_reaper_crash_witness :
    spNilNil ctxN [] = ([], none, none) ∧ ctxN.err = none ∧
      (Spawn ctxN (Scope.mk .active [] []) spNilNil []
          = (Scope.mk .active [] ([] ++ [none]), [], none) ∧
        (Exit ctxN obsLog (Spawn ctxN (Scope.mk .active [] []) spNilNil []).1 []).2.2.2
          = .crash) :=
  ⟨rfl, rfl, C10_nil_reaper_crash Log ctxN ctxN obsLog [] [] spNilNil [] [] [] rfl rfl⟩

end Nls
